import Mathlib

/-!
# dxvk-remix: texture manager key generator and binding indices

Shallow embedding of

* `src/dxvk/rtx_render/rtx_texturemanager.h` (`RtxTextureManager`), and
* `src/dxvk/shaders/rtx/pass/debug_view/debug_view_waveform_render_binding_indices.h`.

`uint64_t` values are natural numbers below `2 ^ 64`; `++ID` is `(ID + 1) % 2 ^ 64`.
-/

namespace dxvk

/-! ## `RtxTextureManager::getUniqueKey` -/

/-- Outcome of running the `do { ... } while (key == kInvalidTextureKey)` loop of
`getUniqueKey`.

* `returned key ID iterations`: the function executed `return key`; `ID` is the value left in
  the function-local `static uint64_t ID`, and `iterations` is a ghost count of the loop bodies
  that were executed (the loop never reads it).
* `assertFailed`: the `assert` of the `_DEBUG` build failed (the process aborts).
* `outOfFuel`: the loop was still running when the iteration budget of the model ran out. -/
inductive KeyResult where
  | returned (key : Nat) (ID : Nat) (iterations : Nat)
  | assertFailed
  | outOfFuel
  deriving DecidableEq, Repr

/-- The condition of `assert(ID + 1 > ID && "Texture hash key id rollover detected!")`, with
`ID + 1` computed in `uint64_t` (the string literal is a non-null pointer, hence true). -/
def rolloverAssert (ID : Nat) : Bool :=
  decide ((ID + 1) % 2 ^ 64 > ID)

/-- The loop of `getUniqueKey`.

* `debug` says whether `_DEBUG` is defined (the `assert` is compiled in).
* `XXH3_64bits` is the value of `XXH3_64bits(&ID, sizeof(ID))` as a function of the counter
  (the xxHash library is not part of the sources).
* `kInvalidTextureKey` is the sentinel (declared in `rtx_texture.h`, not part of the sources).
* the first explicit argument is the iteration budget, the second the current `ID`, the third
  the ghost iteration count. -/
def getUniqueKeyLoop (debug : Bool) (XXH3_64bits : Nat → Nat) (kInvalidTextureKey : Nat) :
    Nat → Nat → Nat → KeyResult
  | 0, _, _ => KeyResult.outOfFuel
  | fuel + 1, ID, iterations =>
    if debug && !rolloverAssert ID then
      KeyResult.assertFailed
    else
      let ID1 := (ID + 1) % 2 ^ 64
      let key := XXH3_64bits ID1
      if key = kInvalidTextureKey then
        getUniqueKeyLoop debug XXH3_64bits kInvalidTextureKey fuel ID1 (iterations + 1)
      else
        KeyResult.returned key ID1 (iterations + 1)

/-- One call of `RtxTextureManager::getUniqueKey` with the static counter holding `ID`. -/
def getUniqueKey (debug : Bool) (XXH3_64bits : Nat → Nat) (kInvalidTextureKey : Nat)
    (fuel : Nat) (ID : Nat) : KeyResult :=
  getUniqueKeyLoop debug XXH3_64bits kInvalidTextureKey fuel ID 0

/-! ### Calls of `getUniqueKey` that overlap

`static uint64_t ID` is shared by all callers of the `inline static` function; it is a plain
integer, with no lock around the loop and no atomic type. The statements of the loop body are
the steps of a call; calls on different threads take their steps in any order. -/

/-- Where a call of `getUniqueKey` stands.

* `atAssert`: at the top of the loop body, before the `assert` (line 61).
* `atIncrement`: before `++ID` (line 63).
* `atHash`: before `key = XXH3_64bits(&ID, sizeof(ID))` and the loop test (lines 64-65).
* `returned key`: the call executed `return key`.
* `assertFailed`: the `assert` of the `_DEBUG` build failed in this call. -/
inductive CallState where
  | atAssert
  | atIncrement
  | atHash
  | returned (key : Nat)
  | assertFailed
  deriving DecidableEq, Repr

/-- One statement of a call, executed with the shared counter holding `ID`: the new value of
the counter and the new position of the call. `++ID` is taken as a single step, and the hash
is computed from the value the counter holds when line 64 reads it through `&ID`. -/
def stepCall (debug : Bool) (XXH3_64bits : Nat → Nat) (kInvalidTextureKey : Nat) (ID : Nat) :
    CallState → Nat × CallState
  | CallState.atAssert =>
    if debug && !rolloverAssert ID then (ID, CallState.assertFailed)
    else (ID, CallState.atIncrement)
  | CallState.atIncrement => ((ID + 1) % 2 ^ 64, CallState.atHash)
  | CallState.atHash =>
    let key := XXH3_64bits ID
    if key = kInvalidTextureKey then (ID, CallState.atAssert)
    else (ID, CallState.returned key)
  | CallState.returned key => (ID, CallState.returned key)
  | CallState.assertFailed => (ID, CallState.assertFailed)

/-- A call that takes `n` steps with no step of another call in between. -/
def runCallAlone (debug : Bool) (XXH3_64bits : Nat → Nat) (kInvalidTextureKey : Nat) :
    Nat → Nat → CallState → Nat × CallState
  | 0, ID, c => (ID, c)
  | n + 1, ID, c =>
    runCallAlone debug XXH3_64bits kInvalidTextureKey n
      (stepCall debug XXH3_64bits kInvalidTextureKey ID c).1
      (stepCall debug XXH3_64bits kInvalidTextureKey ID c).2

/-- The shared counter together with the calls in progress, one entry per call. -/
structure KeyGenState where
  ID : Nat
  calls : List CallState
  deriving DecidableEq, Repr

/-- The call number `t` takes its next step. Nothing runs after a failed `assert` (the process
has aborted), and a `t` that names no call changes nothing. -/
def KeyGenState.step (debug : Bool) (XXH3_64bits : Nat → Nat) (kInvalidTextureKey : Nat)
    (g : KeyGenState) (t : Nat) : KeyGenState :=
  if CallState.assertFailed ∈ g.calls then g
  else
    match g.calls[t]? with
    | some c =>
      { ID := (stepCall debug XXH3_64bits kInvalidTextureKey g.ID c).1,
        calls := g.calls.set t (stepCall debug XXH3_64bits kInvalidTextureKey g.ID c).2 }
    | none => g

/-- The calls take their steps in the order `schedule` gives. -/
def runCalls (debug : Bool) (XXH3_64bits : Nat → Nat) (kInvalidTextureKey : Nat)
    (schedule : List Nat) (g : KeyGenState) : KeyGenState :=
  schedule.foldl (KeyGenState.step debug XXH3_64bits kInvalidTextureKey) g

/-- A sample 64-bit hash that hits the sentinel `0` on every counter value `4 j + 1`. -/
def retryHash (x : Nat) : Nat :=
  if x % 4 = 1 then 0 else (x * 2654435761 + 7) % 2 ^ 64

/-! ## `RtxTextureManager::calcPreloadMips` -/

/-- Modelled from the spec: the body of `RtxTextureManager::calcPreloadMips`, which the header
only declares (`static int calcPreloadMips(int mipLevels)`). The spec describes it as a "pure
function computing how many top (coarsest) mip levels should be uploaded immediately versus
streamed later, given the full mip chain length", with the policy "a small fixed-size prefix
[...] independent of texture size". `preloadPrefix` is the fixed prefix size; the result is
the number of levels in the prefix of that size of a chain of `mipLevels` levels. -/
def calcPreloadMips (preloadPrefix : Int) (mipLevels : Int) : Int :=
  min preloadPrefix mipLevels

/-! ## The upload queue `m_textureQueue` -/

/-- State of the upload machinery. `m_textureQueue` is the `std::queue<Rc<ManagedTexture>>`
of the header: the head of the list is `front()`, `push` appends at the end, `pop` removes the
head. Textures are identified by their key. `m_texturesPending` is the pending count.
`uploading` (the entry the worker has dequeued and not finished) and `resident` (the textures
whose upload completed) are modelled from the spec. -/
structure UploadState where
  m_textureQueue : List Nat
  m_texturesPending : Nat
  uploading : Option Nat
  resident : List Nat
  deriving DecidableEq, Repr

/-- State of a freshly constructed manager: empty queue, `m_texturesPending = { 0u }`. -/
def UploadState.initial : UploadState :=
  { m_textureQueue := [], m_texturesPending := 0, uploading := none, resident := [] }

/-- Operations on the upload machinery, each executed under `m_queueMutex`. -/
inductive UploadEvent where
  | schedule (texture : Nat)
  | workerDequeue
  | workerFinish (dropRequests : Bool)
  | unload (texture : Nat)
  deriving DecidableEq, Repr

/-- Modelled from the spec: the asynchronous path of `scheduleTextureUpload` (declared in the
header, body missing): "the texture is appended to the upload queue (if not already
queued/uploading) and the pending-count is incremented"; "scheduling an already-queued or
already-resident texture is a no-op". Returns the new state and the texture appended, if
any. -/
def scheduleTextureUpload (s : UploadState) (texture : Nat) : UploadState × Option Nat :=
  if texture ∈ s.m_textureQueue ∨ s.uploading = some texture ∨ texture ∈ s.resident then
    (s, none)
  else
    ({ s with m_textureQueue := s.m_textureQueue ++ [texture],
              m_texturesPending := s.m_texturesPending + 1 }, some texture)

/-- Modelled from the spec: the dequeue of the worker loop `threadFunc` (declared in the
header, body missing): "dequeue one texture". The idle worker takes `front()` and `pop`s it.
Returns the new state and the texture dequeued, if any. -/
def workerDequeue (s : UploadState) : UploadState × Option Nat :=
  match s.uploading, s.m_textureQueue with
  | none, texture :: rest => ({ s with m_textureQueue := rest, uploading := some texture },
      some texture)
  | _, _ => (s, none)

/-- Modelled from the spec: the rest of a worker iteration (body missing): "perform its upload
via the execution context, decrement pending-count"; "if a drop-request is active, instead
discard the dequeued entry without uploading and still decrement pending-count". -/
def workerFinish (s : UploadState) (dropRequests : Bool) : UploadState :=
  match s.uploading with
  | some texture =>
    { s with uploading := none,
             m_texturesPending := s.m_texturesPending - 1,
             resident := if dropRequests then s.resident else texture :: s.resident }
  | none => s

/-- Modelled from the spec: the effect of `unloadTexture` on the queue (declared in the
header, body missing): "removes its queue membership if still pending". -/
def unloadTexture (s : UploadState) (texture : Nat) : UploadState :=
  { s with m_textureQueue := s.m_textureQueue.filter (fun t => t ≠ texture),
           m_texturesPending := s.m_texturesPending - s.m_textureQueue.count texture }

/-- Modelled from the spec: `synchronize()` called without `dropRequests` (declared in the
header, body missing): "blocks the calling thread until the pending-count reaches 0". In state
`s` the call returns, leaving the state as it is, exactly when `m_texturesPending` is `0`;
`none` says the caller is still blocked on `m_condOnSync`. -/
def synchronize (s : UploadState) : Option UploadState :=
  if s.m_texturesPending = 0 then some s else none

/-- A run of the upload machinery together with two ghost logs: the textures appended to the
queue by scheduling, and the textures dequeued by the worker, both in order of occurrence. -/
structure UploadRun where
  state : UploadState
  enqueued : List Nat
  dequeued : List Nat
  deriving DecidableEq, Repr

/-- One event of a run. -/
def UploadRun.step (r : UploadRun) : UploadEvent → UploadRun
  | UploadEvent.schedule texture =>
    match scheduleTextureUpload r.state texture with
    | (s, some t) => { r with state := s, enqueued := r.enqueued ++ [t] }
    | (s, none) => { r with state := s }
  | UploadEvent.workerDequeue =>
    match workerDequeue r.state with
    | (s, some t) => { r with state := s, dequeued := r.dequeued ++ [t] }
    | (s, none) => { r with state := s }
  | UploadEvent.workerFinish dropRequests =>
    { r with state := workerFinish r.state dropRequests }
  | UploadEvent.unload texture =>
    { r with state := unloadTexture r.state texture }

/-- The run of a sequence of events from the initial state. -/
def runUploadEvents (events : List UploadEvent) : UploadRun :=
  events.foldl UploadRun.step
    { state := UploadState.initial, enqueued := [], dequeued := [] }

/-! ## The registry `m_textures` and `preloadTexture` -/

/-- Modelled from the spec: the record `ManagedTexture` (only forward-declared in the header):
identity key, the (asset, colour space) pairing it was created for, the preload mip count
computed at creation, and whether its pixel data has been uploaded. -/
structure ManagedTexture where
  key : Nat
  asset : Nat
  colorSpace : Nat
  preloadMips : Int
  resident : Bool
  deriving DecidableEq, Repr

/-- The registry `m_textures` together with the static counter `ID` of `getUniqueKey`. -/
structure Registry where
  ID : Nat
  m_textures : List ManagedTexture
  deriving DecidableEq, Repr

/-- The build and library parameters `preloadTexture` depends on. -/
structure KeyEnv where
  debug : Bool
  XXH3_64bits : Nat → Nat
  kInvalidTextureKey : Nat
  fuel : Nat
  preloadPrefix : Int

/-- Modelled from the spec: `preloadTexture` (declared in the header, body missing): "looks up
an existing entry for the (asset, colorSpace) pair; if absent, creates one with a computed
preload mip count and inserts it into the registry. If `forceLoad` is set, performs the upload
synchronously on the calling thread". A new record takes its key from `getUniqueKey`;
`mipLevels` is the length of the mip chain of the asset. Returns the record and the new
registry; `none` when `getUniqueKey` does not return. -/
def preloadTexture (env : KeyEnv) (s : Registry) (asset colorSpace : Nat) (mipLevels : Int)
    (forceLoad : Bool) : Option (ManagedTexture × Registry) :=
  match s.m_textures.find? (fun t => t.asset = asset ∧ t.colorSpace = colorSpace) with
  | some t =>
    if forceLoad then
      let t1 := { t with resident := true }
      some (t1, { s with m_textures := s.m_textures.map (fun u => if u.key = t.key then t1 else u) })
    else
      some (t, s)
  | none =>
    match getUniqueKey env.debug env.XXH3_64bits env.kInvalidTextureKey env.fuel s.ID with
    | KeyResult.returned key ID1 _ =>
      let t : ManagedTexture :=
        { key := key, asset := asset, colorSpace := colorSpace,
          preloadMips := calcPreloadMips env.preloadPrefix mipLevels, resident := forceLoad }
      some (t, { ID := ID1, m_textures := t :: s.m_textures })
    | _ => none

/-- A sample build: debug, the hash `retryHash`, sentinel `0`, prefix of 8 mip levels. -/
def sampleEnv : KeyEnv :=
  { debug := true, XXH3_64bits := retryHash, kInvalidTextureKey := 0, fuel := 5,
    preloadPrefix := 8 }

/-! ## `debug_view_waveform_render_binding_indices.h` -/

def DEBUG_VIEW_WAVEFORM_RENDER_BINDING_HDR_WAVEFORM_RED_INPUT : Nat := 0

def DEBUG_VIEW_WAVEFORM_RENDER_BINDING_HDR_WAVEFORM_GREEN_INPUT : Nat := 1

def DEBUG_VIEW_WAVEFORM_RENDER_BINDING_HDR_WAVEFORM_BLUE_INPUT : Nat := 2

def DEBUG_VIEW_WAVEFORM_RENDER_BINDING_CONSTANTS_INPUT : Nat := 3

def DEBUG_VIEW_WAVEFORM_RENDER_BINDING_INPUT_OUTPUT : Nat := 4

/-- The binding indices the header defines, in the order of definition. -/
def waveformRenderBindings : List Nat :=
  [DEBUG_VIEW_WAVEFORM_RENDER_BINDING_HDR_WAVEFORM_RED_INPUT,
   DEBUG_VIEW_WAVEFORM_RENDER_BINDING_HDR_WAVEFORM_GREEN_INPUT,
   DEBUG_VIEW_WAVEFORM_RENDER_BINDING_HDR_WAVEFORM_BLUE_INPUT,
   DEBUG_VIEW_WAVEFORM_RENDER_BINDING_CONSTANTS_INPUT,
   DEBUG_VIEW_WAVEFORM_RENDER_BINDING_INPUT_OUTPUT]

/-- The macro `#define DEBUG_VIEW_WAVEFORM_RENDER_MAX_BINDING
(DEBUG_VIEW_WAVEFORM_RENDER_BINDING_INPUT_OUTPUT)`. -/
def DEBUG_VIEW_WAVEFORM_RENDER_MAX_BINDING : Nat :=
  DEBUG_VIEW_WAVEFORM_RENDER_BINDING_INPUT_OUTPUT

/-- The macro `#define DEBUG_VIEW_WAVEFORM_RENDER_NUM_BINDINGS (DEBUG_VIEW_MAX_BINDING + 1)`.
Its expansion names `DEBUG_VIEW_MAX_BINDING`, a macro this header does not define: the argument
is the value that macro has where the expansion is used, `none` when it is not defined there
(the expansion then has no value). -/
def DEBUG_VIEW_WAVEFORM_RENDER_NUM_BINDINGS (DEBUG_VIEW_MAX_BINDING : Option Nat) : Option Nat :=
  match DEBUG_VIEW_MAX_BINDING with
  | some maxBinding => some (maxBinding + 1)
  | none => none

/-! ### Helper lemmas on the loop -/

theorem rolloverAssert_eq_true_iff (ID : Nat) (hID : ID < 2 ^ 64) :
    rolloverAssert ID = true ↔ ID + 1 < 2 ^ 64 := by
  unfold rolloverAssert
  simp only [decide_eq_true_eq]
  constructor
  · intro h
    by_contra hlt
    have : ID + 1 = 2 ^ 64 := by omega
    rw [this, Nat.mod_self] at h
    omega
  · intro h
    rw [Nat.mod_eq_of_lt h]
    omega

/-- What a returning run of the loop looks like, in any build. -/
theorem getUniqueKeyLoop_returned (debug : Bool) (h : Nat → Nat) (kInv : Nat) :
    ∀ (fuel ID i key ID1 k : Nat),
      getUniqueKeyLoop debug h kInv fuel ID i = KeyResult.returned key ID1 k →
      i < k ∧ k - i ≤ fuel ∧ ID1 = (ID + (k - i)) % 2 ^ 64 ∧ key = h ID1 ∧ h ID1 ≠ kInv ∧
        ∀ t, 1 ≤ t → t < k - i → h ((ID + t) % 2 ^ 64) = kInv := by
  intro fuel
  induction fuel with
  | zero => intro ID i key ID1 k hret; simp [getUniqueKeyLoop] at hret
  | succ fuel ih =>
    intro ID i key ID1 k hret
    unfold getUniqueKeyLoop at hret
    split at hret
    · cases hret
    · simp only at hret
      split at hret
      · rename_i hk
        obtain ⟨h1, h2, h3, h4, h5, h6⟩ := ih _ _ _ _ _ hret
        refine ⟨by omega, by omega, ?_, h4, h5, ?_⟩
        · rw [h3, Nat.mod_add_mod]
          congr 1; omega
        · intro t ht1 ht2
          by_cases ht : t = 1
          · subst ht; exact hk
          · have := h6 (t - 1) (by omega) (by omega)
            rw [Nat.mod_add_mod] at this
            rw [← this]; congr 2; omega
      · rename_i hk
        injection hret with e1 e2 e3
        subst e1 e2 e3
        refine ⟨by omega, by omega, ?_, rfl, hk, ?_⟩
        · congr 1; omega
        · intro t ht1 ht2; omega

/-- In a `_DEBUG` build a returning run never incremented the counter past `2 ^ 64 - 1`. -/
theorem getUniqueKeyLoop_debug_no_wrap (h : Nat → Nat) (kInv : Nat) :
    ∀ (fuel ID i key ID1 k : Nat), ID < 2 ^ 64 →
      getUniqueKeyLoop true h kInv fuel ID i = KeyResult.returned key ID1 k →
      ID + (k - i) < 2 ^ 64 := by
  intro fuel
  induction fuel with
  | zero => intro ID i key ID1 k _ hret; simp [getUniqueKeyLoop] at hret
  | succ fuel ih =>
    intro ID i key ID1 k hID hret
    unfold getUniqueKeyLoop at hret
    split at hret
    · cases hret
    · rename_i hassert
      have hlt : ID + 1 < 2 ^ 64 := by
        rw [← rolloverAssert_eq_true_iff ID hID]
        simpa using hassert
      simp only at hret
      rw [Nat.mod_eq_of_lt hlt] at hret
      split at hret
      · have h1 := (getUniqueKeyLoop_returned true h kInv _ _ _ _ _ _ hret).1
        have h2 := ih _ _ _ _ _ hlt hret
        omega
      · injection hret with e1 e2 e3
        omega

/-- The loop is still running after `fuel` iterations when the next `fuel` counter values all
hash to the sentinel and the counter stays below `2 ^ 64`. -/
theorem getUniqueKeyLoop_outOfFuel (debug : Bool) (h : Nat → Nat) (kInv : Nat) :
    ∀ (fuel ID i : Nat), ID + fuel < 2 ^ 64 →
      (∀ t, 1 ≤ t → t ≤ fuel → h (ID + t) = kInv) →
      getUniqueKeyLoop debug h kInv fuel ID i = KeyResult.outOfFuel := by
  intro fuel
  induction fuel with
  | zero => intro ID i _ _; rfl
  | succ fuel ih =>
    intro ID i hlt hall
    have hID : ID < 2 ^ 64 := by omega
    have hassert : rolloverAssert ID = true :=
      (rolloverAssert_eq_true_iff ID hID).2 (by omega)
    unfold getUniqueKeyLoop
    simp only [hassert, Bool.not_true, Bool.and_false, Bool.false_eq_true, if_false]
    rw [Nat.mod_eq_of_lt (by omega : ID + 1 < 2 ^ 64)]
    rw [if_pos (hall 1 (by omega) (by omega))]
    apply ih
    · omega
    · intro t ht1 ht2
      have := hall (t + 1) (by omega) (by omega)
      rw [← this]; congr 1; omega

/-- The loop returns after exactly `n` iterations when `ID + n` is the first counter value
above `ID` whose hash is not the sentinel, provided the budget covers `n` iterations. -/
theorem getUniqueKeyLoop_exits (debug : Bool) (h : Nat → Nat) (kInv : Nat) :
    ∀ (n fuel ID i : Nat), 1 ≤ n → n ≤ fuel → ID + n < 2 ^ 64 → h (ID + n) ≠ kInv →
      (∀ t, 1 ≤ t → t < n → h (ID + t) = kInv) →
      getUniqueKeyLoop debug h kInv fuel ID i = KeyResult.returned (h (ID + n)) (ID + n) (i + n) := by
  intro n
  induction n with
  | zero => intro fuel ID i h1; omega
  | succ n ih =>
    intro fuel ID i _ hfuel hlt hne hall
    obtain ⟨fuel, rfl⟩ : ∃ f, fuel = f + 1 := ⟨fuel - 1, by omega⟩
    have hID : ID < 2 ^ 64 := by omega
    have hassert : rolloverAssert ID = true :=
      (rolloverAssert_eq_true_iff ID hID).2 (by omega)
    unfold getUniqueKeyLoop
    simp only [hassert, Bool.not_true, Bool.and_false, Bool.false_eq_true, if_false]
    rw [Nat.mod_eq_of_lt (by omega : ID + 1 < 2 ^ 64)]
    by_cases hn : n = 0
    · subst hn
      rw [if_neg hne]
    · rw [if_pos (hall 1 (by omega) (by omega))]
      have e : ID + (n + 1) = ID + 1 + n := by omega
      rw [e] at hne hlt ⊢
      have := ih fuel (ID + 1) (i + 1) (by omega) (by omega) hlt hne (by
        intro t ht1 ht2
        have := hall (t + 1) (by omega) (by omega)
        rw [← this]; congr 1; omega)
      rw [this]; congr 1; omega

/-- In a `_DEBUG` build the loop aborts on the assertion when every counter value from the
current one up to `2 ^ 64 - 1` hashes to the sentinel: it never wraps around. -/
theorem getUniqueKeyLoop_debug_abort (h : Nat → Nat) (kInv : Nat) :
    ∀ (d fuel ID i : Nat), ID + d + 1 = 2 ^ 64 → d < fuel →
      (∀ x, ID < x → x < 2 ^ 64 → h x = kInv) →
      getUniqueKeyLoop true h kInv fuel ID i = KeyResult.assertFailed := by
  intro d
  induction d with
  | zero =>
    intro fuel ID i hID hfuel _
    obtain ⟨fuel, rfl⟩ : ∃ f, fuel = f + 1 := ⟨fuel - 1, by omega⟩
    have hassert : rolloverAssert ID = false := by
      have := rolloverAssert_eq_true_iff ID (by omega)
      cases hr : rolloverAssert ID
      · rfl
      · have := this.1 hr; omega
    unfold getUniqueKeyLoop
    simp [hassert]
  | succ d ih =>
    intro fuel ID i hID hfuel hall
    obtain ⟨fuel, rfl⟩ : ∃ f, fuel = f + 1 := ⟨fuel - 1, by omega⟩
    have hassert : rolloverAssert ID = true :=
      (rolloverAssert_eq_true_iff ID (by omega)).2 (by omega)
    unfold getUniqueKeyLoop
    simp only [hassert, Bool.not_true, Bool.and_false, Bool.false_eq_true, if_false]
    rw [Nat.mod_eq_of_lt (by omega : ID + 1 < 2 ^ 64)]
    rw [if_pos (hall (ID + 1) (by omega) (by omega))]
    exact ih fuel (ID + 1) (i + 1) (by omega) (by omega)
      (fun x hx1 hx2 => hall x (by omega) hx2)

/-! ### Helper lemmas on overlapping calls -/

/-- One loop iteration of a call that runs alone takes three steps. -/
theorem runCallAlone_iteration (debug : Bool) (h : Nat → Nat) (kInv n ID : Nat)
    (hassert : ¬ (debug && !rolloverAssert ID) = true) :
    runCallAlone debug h kInv (n + 3) ID CallState.atAssert
      = runCallAlone debug h kInv n ((ID + 1) % 2 ^ 64)
          (if h ((ID + 1) % 2 ^ 64) = kInv then CallState.atAssert
           else CallState.returned (h ((ID + 1) % 2 ^ 64))) := by
  simp only [runCallAlone, stepCall, if_neg hassert]
  split_ifs <;> rfl

/-- A call that no other call overlaps does what `getUniqueKeyLoop` does: when the loop returns
`key` after `k - i` iterations, the steps of the call, taken alone, end with `return key` and
the same counter. -/
theorem getUniqueKeyLoop_as_steps (debug : Bool) (h : Nat → Nat) (kInv : Nat) :
    ∀ (fuel ID i key ID1 k : Nat),
      getUniqueKeyLoop debug h kInv fuel ID i = KeyResult.returned key ID1 k →
      runCallAlone debug h kInv (3 * (k - i)) ID CallState.atAssert
        = (ID1, CallState.returned key) := by
  intro fuel
  induction fuel with
  | zero => intro ID i key ID1 k hret; simp [getUniqueKeyLoop] at hret
  | succ fuel ih =>
    intro ID i key ID1 k hret
    have hlt := (getUniqueKeyLoop_returned debug h kInv _ _ _ _ _ _ hret).1
    unfold getUniqueKeyLoop at hret
    split at hret
    · cases hret
    · rename_i hassert
      simp only at hret
      have e : 3 * (k - i) = 3 * (k - (i + 1)) + 3 := by omega
      rw [e, runCallAlone_iteration debug h kInv _ ID hassert]
      split at hret
      · rename_i hk
        rw [if_pos hk]
        exact ih _ _ _ _ _ hret
      · rename_i hk
        injection hret with e1 e2 e3
        subst e1 e2 e3
        rw [if_neg hk]
        simp [runCallAlone]

/-- Two calls of which the second starts after the first has returned read different counter
values: the first returns `h (c + 1)`, the second `h (c + 2)`. -/
theorem runCalls_one_after_the_other (debug : Bool) (h : Nat → Nat) (kInv c : Nat)
    (hc : c + 2 < 2 ^ 64) (h1 : h (c + 1) ≠ kInv) (h2 : h (c + 2) ≠ kInv) :
    runCalls debug h kInv [0, 0, 0, 1, 1, 1]
        { ID := c, calls := [CallState.atAssert, CallState.atAssert] }
      = { ID := c + 2,
          calls := [CallState.returned (h (c + 1)), CallState.returned (h (c + 2))] } := by
  have ha0 : rolloverAssert c = true := (rolloverAssert_eq_true_iff c (by omega)).2 (by omega)
  have ha1 : rolloverAssert (c + 1) = true :=
    (rolloverAssert_eq_true_iff (c + 1) (by omega)).2 (by omega)
  have e1 : (c + 1) % 18446744073709551616 = c + 1 := Nat.mod_eq_of_lt (by omega)
  have e2 : (c + 1 + 1) % 18446744073709551616 = c + 2 := Nat.mod_eq_of_lt (by omega)
  simp [runCalls, KeyGenState.step, stepCall, ha0, ha1, e1, e2, h1, h2]

/-! ### Helper lemmas on the upload queue -/

theorem length_filter_ne (x : Nat) :
    ∀ l : List Nat, (l.filter (fun t => t ≠ x)).length = l.length - l.count x := by
  intro l
  induction l with
  | nil => rfl
  | cons a l ih =>
    have hle : l.count x ≤ l.length := List.count_le_length x l
    rw [List.filter_cons, List.count_cons]
    by_cases ha : a = x
    · simp only [ha, ne_eq, not_true_eq_false, decide_False, Bool.false_eq_true, if_false,
        beq_self_eq_true, if_true, List.length_cons]
      rw [ih]; omega
    · have hax : (a == x) = false := by simpa using ha
      simp only [ne_eq, ha, not_false_eq_true, decide_True, if_true, hax, Bool.false_eq_true,
        if_false, List.length_cons, Nat.add_zero]
      rw [ih]; omega

theorem scheduleTextureUpload_pending (s : UploadState) (texture : Nat)
    (hinv : s.m_texturesPending
      = s.m_textureQueue.length + (if s.uploading.isSome then 1 else 0)) :
    (scheduleTextureUpload s texture).1.m_texturesPending
      = (scheduleTextureUpload s texture).1.m_textureQueue.length
        + (if (scheduleTextureUpload s texture).1.uploading.isSome then 1 else 0) := by
  unfold scheduleTextureUpload
  split
  · exact hinv
  · simp only [List.length_append, List.length_singleton]
    omega

theorem workerDequeue_pending (s : UploadState)
    (hinv : s.m_texturesPending
      = s.m_textureQueue.length + (if s.uploading.isSome then 1 else 0)) :
    (workerDequeue s).1.m_texturesPending
      = (workerDequeue s).1.m_textureQueue.length
        + (if (workerDequeue s).1.uploading.isSome then 1 else 0) := by
  unfold workerDequeue
  split
  · rename_i texture rest hu hq
    rw [hu, hq] at hinv
    simpa using hinv
  · exact hinv

theorem workerFinish_pending (s : UploadState) (dropRequests : Bool)
    (hinv : s.m_texturesPending
      = s.m_textureQueue.length + (if s.uploading.isSome then 1 else 0)) :
    (workerFinish s dropRequests).m_texturesPending
      = (workerFinish s dropRequests).m_textureQueue.length
        + (if (workerFinish s dropRequests).uploading.isSome then 1 else 0) := by
  unfold workerFinish
  split
  · rename_i texture hu
    rw [hu] at hinv
    simp only [Option.isSome_some, if_true] at hinv
    simp only [Option.isSome_none, Bool.false_eq_true, if_false]
    omega
  · exact hinv

theorem unloadTexture_pending (s : UploadState) (texture : Nat)
    (hinv : s.m_texturesPending
      = s.m_textureQueue.length + (if s.uploading.isSome then 1 else 0)) :
    (unloadTexture s texture).m_texturesPending
      = (unloadTexture s texture).m_textureQueue.length
        + (if (unloadTexture s texture).uploading.isSome then 1 else 0) := by
  have hle : s.m_textureQueue.count texture ≤ s.m_textureQueue.length :=
    List.count_le_length _ _
  simp only [unloadTexture, length_filter_ne]
  omega

theorem UploadRun.step_schedule_state (r : UploadRun) (texture : Nat) :
    (r.step (UploadEvent.schedule texture)).state
      = (scheduleTextureUpload r.state texture).1 := by
  simp only [UploadRun.step]
  split <;> (rename_i heq; rw [heq])

theorem UploadRun.step_workerDequeue_state (r : UploadRun) :
    (r.step UploadEvent.workerDequeue).state = (workerDequeue r.state).1 := by
  simp only [UploadRun.step]
  split <;> (rename_i heq; rw [heq])

/-- Every event keeps the pending count equal to the number of queued textures plus the
texture being uploaded, if any. -/
theorem UploadRun.step_pending (r : UploadRun) (e : UploadEvent)
    (hinv : r.state.m_texturesPending
      = r.state.m_textureQueue.length + (if r.state.uploading.isSome then 1 else 0)) :
    (r.step e).state.m_texturesPending
      = (r.step e).state.m_textureQueue.length
        + (if (r.step e).state.uploading.isSome then 1 else 0) := by
  cases e with
  | schedule texture =>
    rw [UploadRun.step_schedule_state]
    exact scheduleTextureUpload_pending r.state texture hinv
  | workerDequeue =>
    rw [UploadRun.step_workerDequeue_state]
    exact workerDequeue_pending r.state hinv
  | workerFinish dropRequests => exact workerFinish_pending r.state dropRequests hinv
  | unload texture => exact unloadTexture_pending r.state texture hinv

theorem UploadRun.foldl_pending (events : List UploadEvent) :
    ∀ r : UploadRun,
      r.state.m_texturesPending
        = r.state.m_textureQueue.length + (if r.state.uploading.isSome then 1 else 0) →
      (events.foldl UploadRun.step r).state.m_texturesPending
        = (events.foldl UploadRun.step r).state.m_textureQueue.length
          + (if (events.foldl UploadRun.step r).state.uploading.isSome then 1 else 0) := by
  induction events with
  | nil => intro r h; exact h
  | cons e events ih => intro r h; exact ih _ (UploadRun.step_pending r e h)


theorem workerFinish_queue (s : UploadState) (dropRequests : Bool) :
    (workerFinish s dropRequests).m_textureQueue = s.m_textureQueue := by
  unfold workerFinish
  split <;> rfl

theorem workerDequeue_some (s s1 : UploadState) (t : Nat)
    (h : workerDequeue s = (s1, some t)) : s.m_textureQueue = t :: s1.m_textureQueue := by
  unfold workerDequeue at h
  split at h
  · rename_i hq
    simp only [Prod.mk.injEq, Option.some.injEq] at h
    obtain ⟨rfl, rfl⟩ := h
    exact hq
  · simp at h

theorem workerDequeue_none (s s1 : UploadState)
    (h : workerDequeue s = (s1, none)) : s1 = s := by
  unfold workerDequeue at h
  split at h
  · simp at h
  · simp only [Prod.mk.injEq, and_true] at h
    exact h.symm

/-- Every event keeps the dequeued textures followed by the queue content an order-preserving
selection of the enqueued textures. -/
theorem UploadRun.step_sublist (r : UploadRun) (e : UploadEvent)
    (hinv : (r.dequeued ++ r.state.m_textureQueue).Sublist r.enqueued) :
    ((r.step e).dequeued ++ (r.step e).state.m_textureQueue).Sublist (r.step e).enqueued := by
  cases e with
  | schedule texture =>
    simp only [UploadRun.step, scheduleTextureUpload]
    split_ifs
    · exact hinv
    · simp only [← List.append_assoc]
      exact hinv.append (List.Sublist.refl _)
  | workerDequeue =>
    simp only [UploadRun.step]
    split
    · rename_i s1 t hd
      rw [workerDequeue_some _ _ _ hd] at hinv
      simpa using hinv
    · rename_i s1 hd
      rw [workerDequeue_none _ _ hd]
      exact hinv
  | workerFinish dropRequests =>
    simp only [UploadRun.step, workerFinish_queue]
    exact hinv
  | unload texture =>
    simp only [UploadRun.step, unloadTexture]
    exact ((List.Sublist.refl _).append (List.filter_sublist _)).trans hinv

/-- Every event other than an unload keeps the dequeued textures followed by the queue content
equal to the enqueued textures. -/
theorem UploadRun.step_exact (r : UploadRun) (e : UploadEvent)
    (hne : ∀ texture, e ≠ UploadEvent.unload texture)
    (hinv : r.dequeued ++ r.state.m_textureQueue = r.enqueued) :
    (r.step e).dequeued ++ (r.step e).state.m_textureQueue = (r.step e).enqueued := by
  cases e with
  | schedule texture =>
    simp only [UploadRun.step, scheduleTextureUpload]
    split_ifs
    · exact hinv
    · simp only [← List.append_assoc, hinv]
  | workerDequeue =>
    simp only [UploadRun.step]
    split
    · rename_i s1 t hd
      rw [workerDequeue_some _ _ _ hd] at hinv
      simpa using hinv
    · rename_i s1 hd
      rw [workerDequeue_none _ _ hd]
      exact hinv
  | workerFinish dropRequests =>
    simp only [UploadRun.step, workerFinish_queue]
    exact hinv
  | unload texture => exact absurd rfl (hne texture)

theorem UploadRun.foldl_sublist (events : List UploadEvent) :
    ∀ r : UploadRun, (r.dequeued ++ r.state.m_textureQueue).Sublist r.enqueued →
      ((events.foldl UploadRun.step r).dequeued
        ++ (events.foldl UploadRun.step r).state.m_textureQueue).Sublist
        (events.foldl UploadRun.step r).enqueued := by
  induction events with
  | nil => intro r h; exact h
  | cons e events ih => intro r h; exact ih _ (UploadRun.step_sublist r e h)

theorem UploadRun.foldl_exact (events : List UploadEvent)
    (hne : ∀ texture, UploadEvent.unload texture ∉ events) :
    ∀ r : UploadRun, r.dequeued ++ r.state.m_textureQueue = r.enqueued →
      (events.foldl UploadRun.step r).dequeued
        ++ (events.foldl UploadRun.step r).state.m_textureQueue
        = (events.foldl UploadRun.step r).enqueued := by
  induction events with
  | nil => intro r h; exact h
  | cons e events ih =>
    intro r h
    refine ih (fun t ht => hne t (List.mem_cons_of_mem _ ht)) _ (UploadRun.step_exact r e ?_ h)
    intro t ht
    exact hne t (ht ▸ List.mem_cons_self _ _)

/-! ### Helper lemmas on the registry -/

/-- Marking the found record resident in place keeps it the record found. -/
theorem find_map_resident (asset colorSpace : Nat) (t : ManagedTexture) :
    ∀ l : List ManagedTexture,
      l.find? (fun u => u.asset = asset ∧ u.colorSpace = colorSpace) = some t →
      (l.map (fun u => if u.key = t.key then { t with resident := true } else u)).find?
        (fun u => u.asset = asset ∧ u.colorSpace = colorSpace)
        = some { t with resident := true } := by
  intro l
  induction l with
  | nil => intro h; simp at h
  | cons u l ih =>
    intro h
    have ht := List.find?_some h
    simp only [decide_eq_true_eq] at ht
    by_cases hu : u.asset = asset ∧ u.colorSpace = colorSpace
    · rw [List.find?_cons_of_pos _ (by simpa using hu)] at h
      injection h with h
      subst h
      simp [ht]
    · rw [List.find?_cons_of_neg _ (by simpa using hu)] at h
      by_cases hk : u.key = t.key
      · simp [hk, ht]
      · have := ih h
        simp only [List.map_cons, hk, if_false]
        rw [List.find?_cons_of_neg _ (by simpa using hu)]
        exact this

/-- After a call of `preloadTexture` that returns, the record returned is the registry entry
found for the (asset, colour space) pair. -/
theorem preloadTexture_registered (env : KeyEnv) (s : Registry) (asset colorSpace : Nat)
    (mipLevels : Int) (forceLoad : Bool) (t1 : ManagedTexture) (s1 : Registry)
    (h1 : preloadTexture env s asset colorSpace mipLevels forceLoad = some (t1, s1)) :
    s1.m_textures.find? (fun u => u.asset = asset ∧ u.colorSpace = colorSpace) = some t1 := by
  unfold preloadTexture at h1
  split at h1
  · rename_i t hfind
    split at h1
    · simp only [Option.some.injEq, Prod.mk.injEq] at h1
      obtain ⟨rfl, rfl⟩ := h1
      exact find_map_resident asset colorSpace t _ hfind
    · simp only [Option.some.injEq, Prod.mk.injEq] at h1
      obtain ⟨rfl, rfl⟩ := h1
      exact hfind
  · split at h1
    · simp only [Option.some.injEq, Prod.mk.injEq] at h1
      obtain ⟨rfl, rfl⟩ := h1
      simp
    · cases h1

/-! ### The claims on `getUniqueKey` -/

/-- C1: whatever the counter holds before the call and whatever the hash computes, a call of
`getUniqueKey` that returns does not return the sentinel `kInvalidTextureKey`. -/
theorem getUniqueKey_ne_invalid (debug : Bool) (XXH3_64bits : Nat → Nat)
    (kInvalidTextureKey fuel ID key ID1 iterations : Nat)
    (hret : getUniqueKey debug XXH3_64bits kInvalidTextureKey fuel ID
      = KeyResult.returned key ID1 iterations) :
    key ≠ kInvalidTextureKey := by
  obtain ⟨_, _, _, h4, h5, _⟩ :=
    getUniqueKeyLoop_returned debug XXH3_64bits kInvalidTextureKey _ _ _ _ _ _ hret
  rw [h4]; exact h5

theorem getUniqueKey_ne_invalid_witness :
    getUniqueKey true retryHash 0 5 0 = KeyResult.returned 5308871529 2 2 ∧
      (5308871529 : Nat) ≠ 0 :=
  ⟨by decide, getUniqueKey_ne_invalid true retryHash 0 5 0 5308871529 2 2 (by decide)⟩

/-- C7: if a call of `getUniqueKey` started with the counter at `c` returns after `k` loop
iterations without the counter wrapping around (`c + k < 2 ^ 64`), then the counter afterwards
is `c1 = c + k > c`, the returned key is `h c1`, which is not the sentinel, every counter value
strictly between `c` and `c1` hashes to the sentinel, `c1` is the smallest value above `c`
whose hash is not the sentinel, and the counter advances by exactly 1 when `h (c + 1)` is not
the sentinel. -/
theorem getUniqueKey_next_valid_counter (debug : Bool) (h : Nat → Nat)
    (kInvalidTextureKey fuel c key c1 k : Nat)
    (hret : getUniqueKey debug h kInvalidTextureKey fuel c = KeyResult.returned key c1 k)
    (hnowrap : c + k < 2 ^ 64) :
    c1 = c + k ∧ c < c1 ∧ key = h c1 ∧ h c1 ≠ kInvalidTextureKey ∧
      (∀ x, c < x → x < c1 → h x = kInvalidTextureKey) ∧
      (∀ x, c < x → h x ≠ kInvalidTextureKey → c1 ≤ x) ∧
      (h (c + 1) ≠ kInvalidTextureKey → c1 = c + 1) := by
  obtain ⟨h1, _, h3, h4, h5, h6⟩ :=
    getUniqueKeyLoop_returned debug h kInvalidTextureKey _ _ _ _ _ _ hret
  simp only [Nat.sub_zero] at h3 h6
  rw [Nat.mod_eq_of_lt hnowrap] at h3
  have hbetween : ∀ x, c < x → x < c1 → h x = kInvalidTextureKey := by
    intro x hx1 hx2
    have := h6 (x - c) (by omega) (by omega)
    rw [Nat.mod_eq_of_lt (by omega)] at this
    rw [← this]; congr 1; omega
  refine ⟨h3, by omega, h4, h5, hbetween, ?_, ?_⟩
  · intro x hx hne
    by_contra hlt
    exact hne (hbetween x hx (by omega))
  · intro hne
    by_contra hc
    exact hne (hbetween (c + 1) (by omega) (by omega))

theorem getUniqueKey_next_valid_counter_witness :
    getUniqueKey false retryHash 0 9 4 = KeyResult.returned 15926614573 6 2 ∧
      (6 = 4 + 2 ∧ 4 < 6 ∧ 15926614573 = retryHash 6 ∧ retryHash 6 ≠ 0 ∧
        (∀ x, 4 < x → x < 6 → retryHash x = 0) ∧
        (∀ x, 4 < x → retryHash x ≠ 0 → 6 ≤ x) ∧
        (retryHash (4 + 1) ≠ 0 → 6 = 4 + 1)) :=
  ⟨by decide,
    getUniqueKey_next_valid_counter false retryHash 0 9 4 15926614573 6 2 (by decide)
      (by decide)⟩

/-- C8: in a `_DEBUG` build rollover of the 64-bit counter is fatal. For a counter value `ID`
(a `uint64_t`), the assertion `ID + 1 > ID` fails exactly when `ID = 2 ^ 64 - 1`; a loop
iteration entered with that value aborts on the assertion; a call that could only return
after the counter had wrapped aborts as well; and a call that returns has not wrapped: the
counter afterwards is `ID + iterations`, above `ID` and below `2 ^ 64`. -/
theorem rollover_fatal_in_debug (ID : Nat) (hID : ID < 2 ^ 64) :
    (rolloverAssert ID = false ↔ ID = 2 ^ 64 - 1) ∧
    (ID = 2 ^ 64 - 1 → ∀ (h : Nat → Nat) (kInv fuel i : Nat),
      getUniqueKeyLoop true h kInv (fuel + 1) ID i = KeyResult.assertFailed) ∧
    (∀ (h : Nat → Nat) (kInv fuel : Nat), (∀ x, ID < x → x < 2 ^ 64 → h x = kInv) →
      2 ^ 64 - ID ≤ fuel → getUniqueKey true h kInv fuel ID = KeyResult.assertFailed) ∧
    (∀ (h : Nat → Nat) (kInv fuel key ID1 k : Nat),
      getUniqueKey true h kInv fuel ID = KeyResult.returned key ID1 k →
      ID1 = ID + k ∧ ID < ID1 ∧ ID1 < 2 ^ 64) := by
  refine ⟨?_, ?_, ?_, ?_⟩
  · have := rolloverAssert_eq_true_iff ID hID
    cases hr : rolloverAssert ID
    · simp only [true_iff]
      by_contra hne
      have := this.2 (by omega)
      rw [hr] at this; cases this
    · have := this.1 hr
      constructor
      · intro hc; cases hc
      · intro hc; omega
  · intro hmax h kInv fuel i
    exact getUniqueKeyLoop_debug_abort h kInv 0 (fuel + 1) ID i (by omega) (by omega)
      (fun x hx1 hx2 => by omega)
  · intro h kInv fuel hall hfuel
    exact getUniqueKeyLoop_debug_abort h kInv (2 ^ 64 - 1 - ID) fuel ID 0 (by omega)
      (by omega) hall
  · intro h kInv fuel key ID1 k hret
    have hnw := getUniqueKeyLoop_debug_no_wrap h kInv _ _ _ _ _ _ hID hret
    obtain ⟨h1, _, h3, _⟩ := getUniqueKeyLoop_returned true h kInv _ _ _ _ _ _ hret
    simp only [Nat.sub_zero] at h3 hnw
    rw [Nat.mod_eq_of_lt hnw] at h3
    omega

theorem rollover_fatal_in_debug_witness :
    2 ^ 64 - 1 < 2 ^ 64 ∧
    ((rolloverAssert (2 ^ 64 - 1) = false ↔ 2 ^ 64 - 1 = 2 ^ 64 - 1) ∧
    (2 ^ 64 - 1 = 2 ^ 64 - 1 → ∀ (h : Nat → Nat) (kInv fuel i : Nat),
      getUniqueKeyLoop true h kInv (fuel + 1) (2 ^ 64 - 1) i = KeyResult.assertFailed) ∧
    (∀ (h : Nat → Nat) (kInv fuel : Nat),
      (∀ x, 2 ^ 64 - 1 < x → x < 2 ^ 64 → h x = kInv) →
      2 ^ 64 - (2 ^ 64 - 1) ≤ fuel →
      getUniqueKey true h kInv fuel (2 ^ 64 - 1) = KeyResult.assertFailed) ∧
    (∀ (h : Nat → Nat) (kInv fuel key ID1 k : Nat),
      getUniqueKey true h kInv fuel (2 ^ 64 - 1) = KeyResult.returned key ID1 k →
      ID1 = 2 ^ 64 - 1 + k ∧ 2 ^ 64 - 1 < ID1 ∧ ID1 < 2 ^ 64)) :=
  ⟨by decide, rollover_fatal_in_debug (2 ^ 64 - 1) (by decide)⟩

/-- C9: `getUniqueKey` terminates when some counter value above the current one, reachable
without wraparound, does not hash to the sentinel. If `1 ≤ n`, `c + n < 2 ^ 64` and
`h (c + n) ≠ kInvalidTextureKey`, then there is a least such offset `m ≤ n`, and the call
returns `h (c + m)` after exactly `m` loop iterations, leaving the counter at `c + m`: it
returns under every iteration budget of at least `m`, and is still running under every
smaller budget. -/
theorem getUniqueKey_terminates (debug : Bool) (h : Nat → Nat) (kInvalidTextureKey c n : Nat)
    (hn : 1 ≤ n) (hlt : c + n < 2 ^ 64) (hne : h (c + n) ≠ kInvalidTextureKey) :
    ∃ m, 1 ≤ m ∧ m ≤ n ∧ h (c + m) ≠ kInvalidTextureKey ∧
      (∀ t, 1 ≤ t → t < m → h (c + t) = kInvalidTextureKey) ∧
      (∀ fuel, m ≤ fuel →
        getUniqueKey debug h kInvalidTextureKey fuel c
          = KeyResult.returned (h (c + m)) (c + m) m) ∧
      (∀ fuel, fuel < m →
        getUniqueKey debug h kInvalidTextureKey fuel c = KeyResult.outOfFuel) := by
  have hex : ∃ m, 1 ≤ m ∧ h (c + m) ≠ kInvalidTextureKey := ⟨n, hn, hne⟩
  classical
  have hspec := Nat.find_spec hex
  have hmin : ∀ t, 1 ≤ t → t < Nat.find hex → h (c + t) = kInvalidTextureKey := by
    intro t ht1 ht2
    by_contra hc
    exact Nat.find_min hex ht2 ⟨ht1, hc⟩
  have hle : Nat.find hex ≤ n := Nat.find_min' hex ⟨hn, hne⟩
  refine ⟨Nat.find hex, hspec.1, hle, hspec.2, hmin, ?_, ?_⟩
  · intro fuel hfuel
    have := getUniqueKeyLoop_exits debug h kInvalidTextureKey (Nat.find hex) fuel c 0 hspec.1
      hfuel (by omega) hspec.2 hmin
    simpa [getUniqueKey] using this
  · intro fuel hfuel
    exact getUniqueKeyLoop_outOfFuel debug h kInvalidTextureKey fuel c 0 (by omega)
      (fun t ht1 ht2 => hmin t ht1 (by omega))

theorem getUniqueKey_terminates_witness :
    1 ≤ 3 ∧ 0 + 3 < 2 ^ 64 ∧ retryHash (0 + 3) ≠ 0 ∧
    ∃ m, 1 ≤ m ∧ m ≤ 3 ∧ retryHash (0 + m) ≠ 0 ∧
      (∀ t, 1 ≤ t → t < m → retryHash (0 + t) = 0) ∧
      (∀ fuel, m ≤ fuel →
        getUniqueKey true retryHash 0 fuel 0
          = KeyResult.returned (retryHash (0 + m)) (0 + m) m) ∧
      (∀ fuel, fuel < m → getUniqueKey true retryHash 0 fuel 0 = KeyResult.outOfFuel) :=
  ⟨by decide, by decide, by decide,
    getUniqueKey_terminates true retryHash 0 0 3 (by decide) (by decide) (by decide)⟩

/-! ### The claim on `calcPreloadMips` -/

/-- C3: `calcPreloadMips` is monotonic non-decreasing in `mipLevels` and bounded above by
`mipLevels`, whatever the fixed prefix size. -/
theorem calcPreloadMips_mono_bounded (preloadPrefix : Int) :
    (∀ a b : Int, a ≤ b → calcPreloadMips preloadPrefix a ≤ calcPreloadMips preloadPrefix b) ∧
    (∀ mipLevels : Int, calcPreloadMips preloadPrefix mipLevels ≤ mipLevels) := by
  constructor
  · intro a b hab
    unfold calcPreloadMips
    exact min_le_min_left _ hab
  · intro mipLevels
    unfold calcPreloadMips
    exact min_le_right _ _

theorem calcPreloadMips_mono_bounded_witness :
    (3 : Int) ≤ 12 ∧ calcPreloadMips 8 3 ≤ calcPreloadMips 8 12 ∧ calcPreloadMips 8 12 ≤ 12 :=
  ⟨by decide, (calcPreloadMips_mono_bounded 8).1 3 12 (by decide),
    (calcPreloadMips_mono_bounded 8).2 12⟩

/-! ### The claim on the upload queue -/

/-- C5: the upload queue is strict FIFO. After any sequence of events from the initial state,
the textures the worker has dequeued, followed by the queue content, are an order-preserving
selection of the textures appended by scheduling; and when no texture was unloaded they are
exactly the appended textures in the order of appending, so the worker dequeues a prefix of
the enqueue order, never a reordering. -/
theorem upload_queue_fifo (events : List UploadEvent) :
    ((runUploadEvents events).dequeued
        ++ (runUploadEvents events).state.m_textureQueue).Sublist
      (runUploadEvents events).enqueued ∧
    ((∀ texture, UploadEvent.unload texture ∉ events) →
      (runUploadEvents events).dequeued ++ (runUploadEvents events).state.m_textureQueue
          = (runUploadEvents events).enqueued ∧
        (runUploadEvents events).dequeued <+: (runUploadEvents events).enqueued) := by
  refine ⟨?_, ?_⟩
  · exact UploadRun.foldl_sublist events _ (List.Sublist.refl _)
  · intro hne
    have := UploadRun.foldl_exact events hne
      { state := UploadState.initial, enqueued := [], dequeued := [] } rfl
    exact ⟨this, ⟨_, this⟩⟩

theorem upload_queue_fifo_witness :
    (∀ texture, UploadEvent.unload texture ∉
      [UploadEvent.schedule 7, UploadEvent.schedule 3, UploadEvent.schedule 7,
        UploadEvent.workerDequeue, UploadEvent.schedule 5, UploadEvent.workerFinish false,
        UploadEvent.workerDequeue]) ∧
    (runUploadEvents
      [UploadEvent.schedule 7, UploadEvent.schedule 3, UploadEvent.schedule 7,
        UploadEvent.workerDequeue, UploadEvent.schedule 5, UploadEvent.workerFinish false,
        UploadEvent.workerDequeue]).dequeued = [7, 3] ∧
    (runUploadEvents
      [UploadEvent.schedule 7, UploadEvent.schedule 3, UploadEvent.schedule 7,
        UploadEvent.workerDequeue, UploadEvent.schedule 5, UploadEvent.workerFinish false,
        UploadEvent.workerDequeue]).enqueued = [7, 3, 5] ∧
    (runUploadEvents
      [UploadEvent.schedule 7, UploadEvent.schedule 3, UploadEvent.schedule 7,
        UploadEvent.workerDequeue, UploadEvent.schedule 5, UploadEvent.workerFinish false,
        UploadEvent.workerDequeue]).dequeued <+:
      (runUploadEvents
        [UploadEvent.schedule 7, UploadEvent.schedule 3, UploadEvent.schedule 7,
          UploadEvent.workerDequeue, UploadEvent.schedule 5, UploadEvent.workerFinish false,
          UploadEvent.workerDequeue]).enqueued :=
  ⟨by simp, by decide, by decide,
    ((upload_queue_fifo
      [UploadEvent.schedule 7, UploadEvent.schedule 3, UploadEvent.schedule 7,
        UploadEvent.workerDequeue, UploadEvent.schedule 5, UploadEvent.workerFinish false,
        UploadEvent.workerDequeue]).2 (by simp)).2⟩

/-! ### The claim on `preloadTexture` -/

/-- C6: when a call of `preloadTexture` for an asset and colour space has returned the record
`t1`, a second call with the same asset and colour space returns and yields the same record
(the same key; the same fields, up to the residency a forced load establishes), without
taking a new key (the counter is unchanged) and without adding a registry entry (the entries
keep their keys, in the same order). -/
theorem preloadTexture_twice_same_record (env : KeyEnv) (s : Registry) (asset colorSpace : Nat)
    (mipLevels : Int) (forceLoad1 forceLoad2 : Bool) (t1 : ManagedTexture) (s1 : Registry)
    (h1 : preloadTexture env s asset colorSpace mipLevels forceLoad1 = some (t1, s1)) :
    ∃ t2 s2, preloadTexture env s1 asset colorSpace mipLevels forceLoad2 = some (t2, s2) ∧
      t2.key = t1.key ∧
      t2 = { t1 with resident := t1.resident || forceLoad2 } ∧
      s2.ID = s1.ID ∧
      s2.m_textures.map ManagedTexture.key = s1.m_textures.map ManagedTexture.key ∧
      s2.m_textures.length = s1.m_textures.length ∧
      (forceLoad2 = false → t2 = t1 ∧ s2 = s1) := by
  have hfind := preloadTexture_registered env s asset colorSpace mipLevels forceLoad1 t1 s1 h1
  cases forceLoad2 with
  | false =>
    refine ⟨t1, s1, ?_, rfl, ?_, rfl, rfl, rfl, fun _ => ⟨rfl, rfl⟩⟩
    · unfold preloadTexture
      rw [hfind]
      rfl
    · simp
  | true =>
    refine ⟨{ t1 with resident := true },
      { s1 with m_textures :=
          s1.m_textures.map (fun u => if u.key = t1.key then { t1 with resident := true } else u) },
      ?_, rfl, ?_, rfl, ?_, ?_, ?_⟩
    · unfold preloadTexture
      rw [hfind]
      rfl
    · simp
    · simp only [List.map_map]
      apply List.map_congr_left
      intro u _
      simp only [Function.comp]
      split_ifs with hk
      · exact hk.symm
      · rfl
    · simp
    · intro hc; cases hc

theorem preloadTexture_twice_same_record_witness :
    preloadTexture sampleEnv { ID := 0, m_textures := [] } 11 1 12 false
      = some ({ key := 5308871529, asset := 11, colorSpace := 1, preloadMips := 8,
                resident := false },
              { ID := 2, m_textures := [{ key := 5308871529, asset := 11, colorSpace := 1,
                                          preloadMips := 8, resident := false }] }) ∧
    ∃ t2 s2,
      preloadTexture sampleEnv
          { ID := 2, m_textures := [{ key := 5308871529, asset := 11, colorSpace := 1,
                                      preloadMips := 8, resident := false }] } 11 1 12 true
        = some (t2, s2) ∧
      t2.key = 5308871529 ∧ s2.ID = 2 ∧ s2.m_textures.length = 1 := by
  refine ⟨by decide, ?_⟩
  obtain ⟨t2, s2, h2, hk, _, hID, _, hlen, _⟩ :=
    preloadTexture_twice_same_record sampleEnv { ID := 0, m_textures := [] } 11 1 12 false true
      { key := 5308871529, asset := 11, colorSpace := 1, preloadMips := 8, resident := false }
      { ID := 2, m_textures := [{ key := 5308871529, asset := 11, colorSpace := 1,
                                  preloadMips := 8, resident := false }] } (by decide)
  exact ⟨t2, s2, h2, hk, hID, hlen⟩

/-! ### The claim on the waveform render binding indices -/

/-- C10 on the code: the header defines five pairwise distinct binding indices `0, ..., 4`
and `DEBUG_VIEW_WAVEFORM_RENDER_MAX_BINDING + 1 = 5`, but the expansion of
`DEBUG_VIEW_WAVEFORM_RENDER_NUM_BINDINGS` is `DEBUG_VIEW_MAX_BINDING + 1`: it has no value
where `DEBUG_VIEW_MAX_BINDING` is not defined, it is `8` where that macro is `7`, and it is
`DEBUG_VIEW_WAVEFORM_RENDER_MAX_BINDING + 1` only where that macro happens to be `4`. -/
theorem DEBUG_VIEW_WAVEFORM_RENDER_NUM_BINDINGS_uses_other_macro :
    waveformRenderBindings = [0, 1, 2, 3, 4] ∧
    waveformRenderBindings.Nodup ∧
    waveformRenderBindings.length = 5 ∧
    DEBUG_VIEW_WAVEFORM_RENDER_MAX_BINDING + 1 = 5 ∧
    DEBUG_VIEW_WAVEFORM_RENDER_NUM_BINDINGS none = none ∧
    DEBUG_VIEW_WAVEFORM_RENDER_NUM_BINDINGS (some 7) = some 8 ∧
    DEBUG_VIEW_WAVEFORM_RENDER_NUM_BINDINGS (some 7)
      ≠ some (DEBUG_VIEW_WAVEFORM_RENDER_MAX_BINDING + 1) ∧
    (∀ m, DEBUG_VIEW_WAVEFORM_RENDER_NUM_BINDINGS m
        = some (DEBUG_VIEW_WAVEFORM_RENDER_MAX_BINDING + 1) ↔ m = some 4) := by
  refine ⟨by decide, by decide, by decide, by decide, rfl, rfl, by decide, ?_⟩
  intro m
  cases m with
  | none => simp [DEBUG_VIEW_WAVEFORM_RENDER_NUM_BINDINGS]
  | some v =>
    simp [DEBUG_VIEW_WAVEFORM_RENDER_NUM_BINDINGS, DEBUG_VIEW_WAVEFORM_RENDER_MAX_BINDING,
      DEBUG_VIEW_WAVEFORM_RENDER_BINDING_INPUT_OUTPUT]

/-! ### The claim on sequences of calls of `getUniqueKey` -/

/-- C2 on the code: the keys of two calls of `getUniqueKey` are not distinct when the calls
overlap. With the counter at `c` (the initial state is `c = 0`), let the first call execute its
`assert` and `++ID`, then the second call its `assert` and `++ID`, then each call line 64: both
calls hash the counter value `c + 2` and both return the key `h (c + 2)`, in either build and
for every hash whose value there is not the sentinel. -/
theorem getUniqueKey_overlapping_calls_same_key (debug : Bool) (h : Nat → Nat)
    (kInvalidTextureKey c : Nat) (hc : c + 2 < 2 ^ 64)
    (hne : h (c + 2) ≠ kInvalidTextureKey) :
    runCalls debug h kInvalidTextureKey [0, 0, 1, 1, 0, 1]
        { ID := c, calls := [CallState.atAssert, CallState.atAssert] }
      = { ID := c + 2,
          calls := [CallState.returned (h (c + 2)), CallState.returned (h (c + 2))] } := by
  have ha0 : rolloverAssert c = true := (rolloverAssert_eq_true_iff c (by omega)).2 (by omega)
  have ha1 : rolloverAssert (c + 1) = true :=
    (rolloverAssert_eq_true_iff (c + 1) (by omega)).2 (by omega)
  have e1 : (c + 1) % 18446744073709551616 = c + 1 := Nat.mod_eq_of_lt (by omega)
  have e2 : (c + 1 + 1) % 18446744073709551616 = c + 2 := Nat.mod_eq_of_lt (by omega)
  simp [runCalls, KeyGenState.step, stepCall, ha0, ha1, e1, e2, hne]

theorem getUniqueKey_overlapping_calls_same_key_witness :
    0 + 2 < 2 ^ 64 ∧ retryHash (0 + 2) ≠ 0 ∧
    runCalls true retryHash 0 [0, 0, 1, 1, 0, 1]
        { ID := 0, calls := [CallState.atAssert, CallState.atAssert] }
      = { ID := 0 + 2,
          calls := [CallState.returned (retryHash (0 + 2)),
                    CallState.returned (retryHash (0 + 2))] } :=
  ⟨by decide, by decide,
    getUniqueKey_overlapping_calls_same_key true retryHash 0 0 (by decide) (by decide)⟩

/-! ### The claim on `synchronize` -/

/-- C4: after any sequence of events from the initial state, `synchronize()` called without
`dropRequests` returns only when the pending count `m_texturesPending` is `0`, and then the
worker is not in the middle of an upload and the queue is empty; while the worker is in the
middle of an upload, or a texture is still queued, the caller stays blocked. -/
theorem synchronize_returns_only_when_drained (events : List UploadEvent) :
    (∀ s, synchronize (runUploadEvents events).state = some s →
      s = (runUploadEvents events).state ∧ s.m_texturesPending = 0 ∧ s.uploading = none ∧
        s.m_textureQueue = []) ∧
    ((runUploadEvents events).state.uploading ≠ none ∨
        (runUploadEvents events).state.m_textureQueue ≠ [] →
      synchronize (runUploadEvents events).state = none) := by
  have hinv := UploadRun.foldl_pending events
    { state := UploadState.initial, enqueued := [], dequeued := [] } rfl
  have hdrained : (runUploadEvents events).state.m_texturesPending = 0 →
      (runUploadEvents events).state.uploading = none ∧
        (runUploadEvents events).state.m_textureQueue = [] := by
    intro hp
    unfold runUploadEvents at hp ⊢
    rw [hp] at hinv
    constructor
    · cases hu : (List.foldl UploadRun.step _ events).state.uploading with
      | none => rfl
      | some t => rw [hu] at hinv; simp at hinv
    · apply List.eq_nil_of_length_eq_zero
      omega
  constructor
  · intro s hs
    unfold synchronize at hs
    split at hs
    · rename_i hp
      injection hs with hs
      subst hs
      exact ⟨rfl, hp, (hdrained hp).1, (hdrained hp).2⟩
    · cases hs
  · intro hbusy
    unfold synchronize
    split
    · rename_i hp
      rcases hbusy with hb | hb
      · exact absurd (hdrained hp).1 hb
      · exact absurd (hdrained hp).2 hb
    · rfl

theorem synchronize_returns_only_when_drained_witness :
    synchronize
        (runUploadEvents [UploadEvent.schedule 7, UploadEvent.workerDequeue,
          UploadEvent.workerFinish false]).state
      = some { m_textureQueue := [], m_texturesPending := 0, uploading := none,
               resident := [7] } ∧
    (runUploadEvents [UploadEvent.schedule 7, UploadEvent.schedule 3,
        UploadEvent.workerDequeue]).state.uploading = some 7 ∧
    synchronize
        (runUploadEvents [UploadEvent.schedule 7, UploadEvent.schedule 3,
          UploadEvent.workerDequeue]).state
      = none ∧
    ((⟨[], 0, none, [7]⟩ : UploadState).m_texturesPending = 0 ∧
      (⟨[], 0, none, [7]⟩ : UploadState).uploading = none ∧
      (⟨[], 0, none, [7]⟩ : UploadState).m_textureQueue = []) :=
  ⟨by decide, by decide,
    (synchronize_returns_only_when_drained [UploadEvent.schedule 7, UploadEvent.schedule 3,
      UploadEvent.workerDequeue]).2 (Or.inl (by decide)),
    ((synchronize_returns_only_when_drained [UploadEvent.schedule 7, UploadEvent.workerDequeue,
      UploadEvent.workerFinish false]).1 _ (by decide)).2⟩

end dxvk
